import Mathlib

/-
  Verification development for the StoikTS chemical-formula library.

  The development shallowly embeds the current sources:
    * src/src/impl/Molecule.ts  — the Molecule class (a Map from atom symbol
      to signed integer frequency) and its arithmetic;
    * src/src/index.ts (first, Denque-based variant) — tokenize, toRPN and
      evaluate.

  JS Maps are modelled as association lists in insertion order (Map.set
  updates an existing key in place, otherwise appends; Map.delete removes the
  entry; iteration follows insertion order).  Code that can throw is modelled
  in the Except monad.  Molecule objects handed to evaluate are aliased, so
  evaluate is modelled in store-passing style: a store of Molecule values,
  with Molecule operands represented as store indices.
-/

namespace Stoik

instance exceptDecEq {ε α : Type} [DecidableEq ε] [DecidableEq α] :
    DecidableEq (Except ε α) := fun a b =>
  match a, b with
  | .ok x, .ok y =>
    if h : x = y then .isTrue (by rw [h])
    else .isFalse (by intro hh; cases hh; exact h rfl)
  | .ok _, .error _ => .isFalse (by intro hh; cases hh)
  | .error _, .ok _ => .isFalse (by intro hh; cases hh)
  | .error x, .error y =>
    if h : x = y then .isTrue (by rw [h])
    else .isFalse (by intro hh; cases hh; exact h rfl)

/-- A Molecule is a JS Map from atom-symbol strings to signed integer
frequencies, in insertion order. -/
abbrev Molecule := List (String × Int)

/-- Lookup in a JS Map (first matching key). -/
def mapGet : Molecule → String → Option Int
  | [], _ => none
  | (a, f) :: rest, k => if a = k then some f else mapGet rest k

/-- JS Map.set: update an existing key in place, otherwise append at the end. -/
def mapSetRaw : Molecule → String → Int → Molecule
  | [], k, v => [(k, v)]
  | (a, f) :: rest, k, v =>
    if a = k then (a, v) :: rest else (a, f) :: mapSetRaw rest k v

/-- JS Map.delete: remove the entry with the given key. -/
def mapDelete : Molecule → String → Molecule
  | [], _ => []
  | (a, f) :: rest, k => if a = k then rest else (a, f) :: mapDelete rest k

def isAsciiUpper (c : Char) : Bool := 'A' ≤ c && c ≤ 'Z'

def isAsciiLower (c : Char) : Bool := 'a' ≤ c && c ≤ 'z'

def isDigitChar (c : Char) : Bool := '0' ≤ c && c ≤ '9'

/-- The runtime validation ATOM_LITERAL_TEST = /[A-Z][a-z]?/ used by
Molecule.set.  The regex is unanchored and its second character class is
optional, so `.test(key)` succeeds exactly when the key contains at least one
ASCII uppercase letter anywhere. -/
def atomLiteralTest (s : String) : Bool := s.data.any isAsciiUpper

/-- Molecule.prototype.set: validates the key with ATOM_LITERAL_TEST and
throws Error("Invalid atom format") on failure, then performs Map.set. -/
def Molecule.set (m : Molecule) (key : String) (value : Int) :
    Except String Molecule :=
  if atomLiteralTest key then .ok (mapSetRaw m key value) else
    .error "Invalid atom format"

/-- The Molecule constructor applied to an atom symbol and a frequency.
When the frequency is 0 neither branch of the constructor body runs, so the
derived-class constructor returns without ever calling super(): JS raises a
ReferenceError at that point.  We model that as an error. -/
def moleculeNew (atom : String) (frequency : Int) : Except String Molecule :=
  if frequency ≠ 0 then Molecule.set [] atom frequency
  else .error "super constructor was never called"

/-- Molecule.fromAtom(atom, frequency = 1). -/
def Molecule.fromAtom (atom : String) (frequency : Int := 1) :
    Except String Molecule :=
  moleculeNew atom frequency

/-- The Molecule copy constructor new Molecule(molecule): the Map constructor
re-inserts every entry of the source through the overridden (validating)
set, in iteration order. -/
def moleculeCopy (m : Molecule) : Except String Molecule :=
  m.foldlM (fun acc p => Molecule.set acc p.1 p.2) []

/-- The right-hand argument of add/subtract: an atom symbol with a frequency
(the frequency defaults to 1 at the call sites) or a Molecule. -/
inductive MolArg
  | atom (a : String) (f : Int)
  | mol (m : Molecule)
deriving DecidableEq, Repr

/-- Molecule.addOrSubtractStatic: the shared body of addMut/subtractMut
(and of add/subtract after copying).  Mirrors the two branches of the
source: an atom argument with nonzero frequency does a single get/set, a
Molecule argument folds over its entries. -/
def addOrSubtractStatic (lhs : Molecule) (subtract : Bool) (arg : MolArg) :
    Except String Molecule :=
  match arg with
  | .atom rhs rhsFreq =>
    if rhsFreq ≠ 0 then
      let lhsFreq := (mapGet lhs rhs).getD 0
      -- "Do not leave zeroes in molecules."
      if subtract ∧ lhsFreq = rhsFreq then .ok (mapDelete lhs rhs)
      else Molecule.set lhs rhs
        (if !subtract then lhsFreq + rhsFreq else lhsFreq - rhsFreq)
    else .ok lhs
  | .mol rhs =>
    rhs.foldlM (fun acc p =>
      let leftFreq := (mapGet acc p.1).getD 0
      -- "Do not leave zeroes in molecules."
      if (subtract ∧ leftFreq - p.2 = 0) ∨ leftFreq + p.2 = 0 then
        .ok (mapDelete acc p.1)
      else Molecule.set acc p.1
        (if !subtract then leftFreq + p.2 else leftFreq - p.2)) lhs

/-- Molecule.addMut. -/
def Molecule.addMut (m : Molecule) (arg : MolArg) : Except String Molecule :=
  addOrSubtractStatic m false arg

/-- Molecule.add: copy, then apply the mutating form to the copy. -/
def Molecule.add (m : Molecule) (arg : MolArg) : Except String Molecule :=
  (moleculeCopy m).bind fun c => addOrSubtractStatic c false arg

/-- Molecule.subtractMut. -/
def Molecule.subtractMut (m : Molecule) (arg : MolArg) :
    Except String Molecule :=
  addOrSubtractStatic m true arg

/-- Molecule.subtract: copy, then apply the mutating form to the copy. -/
def Molecule.subtract (m : Molecule) (arg : MolArg) : Except String Molecule :=
  (moleculeCopy m).bind fun c => addOrSubtractStatic c true arg

/-- Molecule.multiplyStatic: for each entry, set the frequency to
multiplier * frequency (through the validating set). -/
def multiplyStatic (m : Molecule) (multiplier : Int) : Except String Molecule :=
  m.foldlM (fun acc p => Molecule.set acc p.1 (multiplier * p.2)) m

/-- Molecule.multiplyMut. -/
def Molecule.multiplyMut (m : Molecule) (multiplier : Int) :
    Except String Molecule :=
  multiplyStatic m multiplier

/-- Molecule.multiply: copy, then multiply the copy. -/
def Molecule.multiply (m : Molecule) (multiplier : Int) :
    Except String Molecule :=
  (moleculeCopy m).bind fun c => multiplyStatic c multiplier

/-- Molecule.negateMut = multiplyStatic(this, -1). -/
def Molecule.negateMut (m : Molecule) : Except String Molecule :=
  multiplyStatic m (-1)

/-- Molecule.negate = multiplyStatic(new Molecule(this), -1). -/
def Molecule.negate (m : Molecule) : Except String Molecule :=
  (moleculeCopy m).bind fun c => multiplyStatic c (-1)

/-- Well-formedness of a Molecule value as a JS Map built through the class
API: keys are distinct and every key passes the runtime atom test. -/
def Molecule.wf (m : Molecule) : Prop :=
  (m.map Prod.fst).Nodup ∧ ∀ p ∈ m, atomLiteralTest p.1 = true

instance molWfDecidable (m : Molecule) : Decidable (Molecule.wf m) := by
  unfold Molecule.wf
  infer_instance

/-- Does the molecule store any entry with frequency 0? -/
def Molecule.hasZeroEntry (m : Molecule) : Bool :=
  m.any (fun p => p.2 = 0)

/-! ## Tokens and the tokenizer (src/src/index.ts) -/

/-- AnyToken: number and atom tokens carry a payload, operators carry none. -/
inductive Tok
  | num (n : Int)
  | atom (s : String)
  | groupLeft
  | groupRight
  | add
  | subtract
  | coefficient
  | subscript
  | join
deriving DecidableEq, Repr

/-- The TokenName table. -/
def tokenName : Tok → String
  | .num _ => "number"
  | .atom _ => "atom"
  | .groupLeft => "left parenthesis"
  | .groupRight => "right parenthesis"
  | .add => "plus"
  | .subtract => "minus"
  | .coefficient => "coefficient"
  | .subscript => "subscript"
  | .join => "join"

/-- MalformedFormulaError: message plus the offending character index. -/
inductive TokenizeError
  | malformedFormula (msg : String) (idx : Nat)
deriving DecidableEq, Repr

/-- Digit-run value: the JS code joins the consecutive digits and converts
with unary plus. -/
def digitsVal (ds : List Char) : Nat :=
  ds.foldl (fun acc c => 10 * acc + (c.toNat - '0'.toNat)) 0

/-- Is the character one the JS /\s/ class matches (the formulas in scope
only ever use the plain space)? -/
def isSpaceChar (c : Char) : Bool :=
  c = ' ' || c = '\t' || c = '\n' || c = '\r'

/-- One pass of the tokenizer state machine over the remaining characters.
`out` is the token deque built so far (appended at the tail, so peekBack is
List.getLast?), `parens` the open-paren counter, `idx` the current character
index.  Fuel only serves termination; callers pass at least the character
count plus one, and every iteration consumes at least one character. -/
def tokenizeLoop : Nat → List Char → List Tok → Nat → Nat →
    Except TokenizeError (List Tok)
  | 0, _, _, _, idx => .error (.malformedFormula "out of fuel" idx)
  | fuel + 1, cs, out, parens, idx =>
    match cs with
    | [] =>
      if parens ≠ 0 then .error (.malformedFormula "Unmatched left bracket" idx)
      else .ok out
    | c :: rest =>
      if isDigitChar c then
        -- Number: consume the whole digit run.
        let ds := (c :: rest).takeWhile isDigitChar
        let rest' := (c :: rest).dropWhile isDigitChar
        let n : Int := Int.ofNat (digitsVal ds)
        let idx' := idx + ds.length
        match out.getLast? with
        | some (.num _) =>
          tokenizeLoop fuel rest' (out ++ [.subscript, .num n]) parens idx'
        | none | some .groupLeft | some .join | some .subtract =>
          tokenizeLoop fuel rest' (out ++ [.num n, .coefficient]) parens idx'
        | some (.atom _) | some .groupRight =>
          tokenizeLoop fuel rest' (out ++ [.subscript, .num n]) parens idx'
        | some last =>
          .error (.malformedFormula
            ("Unexpected number after " ++ tokenName last) idx')
      else if isAsciiUpper c then
        -- Atom: implicit Add after Number/Atom/GroupRight, then one- or
        -- two-character symbol depending on a lowercase lookahead.
        let implicitAdd : List Tok :=
          match out.getLast? with
          | some (.num _) | some (.atom _) | some .groupRight => [.add]
          | _ => []
        match rest with
        | c2 :: rest2 =>
          if isAsciiLower c2 then
            tokenizeLoop fuel rest2
              (out ++ implicitAdd ++ [.atom (String.mk [c, c2])]) parens (idx + 2)
          else
            tokenizeLoop fuel rest
              (out ++ implicitAdd ++ [.atom (String.mk [c])]) parens (idx + 1)
        | [] =>
          tokenizeLoop fuel rest
            (out ++ implicitAdd ++ [.atom (String.mk [c])]) parens (idx + 1)
      else if c = '(' then
        let implicitAdd : List Tok :=
          match out.getLast? with
          | some (.num _) | some (.atom _) | some .groupRight => [.add]
          | _ => []
        tokenizeLoop fuel rest (out ++ implicitAdd ++ [.groupLeft])
          (parens + 1) (idx + 1)
      else if c = ')' then
        if parens = 0 then .error (.malformedFormula "Unmatched right bracket" idx)
        else tokenizeLoop fuel rest (out ++ [.groupRight]) (parens - 1) (idx + 1)
      else if c = '+' then
        tokenizeLoop fuel rest (out ++ [.join]) parens (idx + 1)
      else if c = '-' then
        tokenizeLoop fuel rest (out ++ [.subtract]) parens (idx + 1)
      else if isSpaceChar c then
        tokenizeLoop fuel rest out parens (idx + 1)
      else
        .error (.malformedFormula ("Unexpected token " ++ String.mk [c]) idx)

/-- tokenize(equation). -/
def tokenize (equation : String) : Except TokenizeError (List Tok) :=
  tokenizeLoop (equation.data.length + 1) equation.data [] 0 0

/-! ## Infix-to-postfix conversion (toRPN) -/

/-- The precedence table.  Tokens outside the table compare as undefined in
JS, and any <= comparison with undefined is false. -/
def precedenceOf : Tok → Option Nat
  | .subscript => some 3
  | .add => some 2
  | .coefficient => some 1
  | .join => some 0
  | .subtract => some 0
  | _ => none

/-- The while-condition prec <= precedence[top]: false when the top has no
table entry (GroupLeft). -/
def shouldPop (prec : Nat) (top : Tok) : Bool :=
  match precedenceOf top with
  | some p => prec ≤ p
  | none => false

/-- GroupRight handling: pop operators to the output until a GroupLeft is on
top, then discard the GroupLeft.  On an unbalanced stack the JS loop never
terminates; that path is unreachable from tokenize output (which enforces
balance) and we simply stop with the emptied stack. -/
def popUntilGroupLeft : List Tok → List Tok × List Tok
  | [] => ([], [])
  | t :: rest =>
    if t = .groupLeft then ([], rest)
    else
      let (o, r) := popUntilGroupLeft rest
      (t :: o, r)

/-- Pop operators with precedence at least prec (tie-break <=, making
equal-precedence operators left-associative). -/
def popWhileGE (prec : Nat) : List Tok → List Tok × List Tok
  | [] => ([], [])
  | t :: rest =>
    if shouldPop prec t then
      let (o, r) := popWhileGE prec rest
      (t :: o, r)
    else ([], t :: rest)

/-- The shunting-yard loop: input tokens, output deque, operator stack
(head is the top). -/
def rpnLoop : List Tok → List Tok → List Tok → List Tok
  | [], out, stack => out ++ stack
  | t :: rest, out, stack =>
    match t with
    | .num n => rpnLoop rest (out ++ [.num n]) stack
    | .atom a => rpnLoop rest (out ++ [.atom a]) stack
    | .groupLeft => rpnLoop rest out (.groupLeft :: stack)
    | .groupRight =>
      let (o, stack') := popUntilGroupLeft stack
      rpnLoop rest (out ++ o) stack'
    | op =>
      -- Add, Join, Coefficient, Subscript or Subtract: all in the table.
      let (o, stack') := popWhileGE ((precedenceOf op).getD 0) stack
      rpnLoop rest (out ++ o) (op :: stack')

/-- toRPN on a token sequence. -/
def toRPN (tokens : List Tok) : List Tok := rpnLoop tokens [] []

/-! ## The evaluator (evaluate, src/src/index.ts)

Molecule operands are JS object references that evaluate mutates in place
(multiplyMut / addMut / subtractMut on popped operands), so the evaluator is
modelled in store-passing style: `Store` is the heap of Molecule values and
an `Evaluatable.mol i` operand is a reference to slot `i`. -/

abbrev Store := List Molecule

/-- AnyEvaluatable: a token, or a Molecule object (by reference). -/
inductive Evaluatable
  | tok (t : Tok)
  | mol (i : Nat)
deriving DecidableEq, Repr

/-- Dereference a Molecule object. -/
def storeGet (st : Store) (i : Nat) : Molecule := st.getD i []

/-- In-place mutation of a Molecule object. -/
def storeSet (st : Store) (i : Nat) (m : Molecule) : Store := st.set i m

/-- The errors evaluate can raise.  The current evaluate only ever throws
plain Error objects (carrying a message) plus a TypeError when the final
destructuring hits undefined; the InvalidOperationError class (which carries
both operands and the operator) exists in the repository only in the
historical variant of index.ts and is included here so that statements can
distinguish the two kinds. -/
inductive EvalError
  | generic (msg : String)
  | typeError
  | invalidOperation (msg : String) (lhs rhs : Evaluatable) (op : Tok)
deriving DecidableEq, Repr

/-- Lift the Molecule-level Error (a message) into an evaluator error. -/
def liftE {α : Type} : Except String α → Except EvalError α
  | .ok a => .ok a
  | .error msg => .error (.generic msg)

/-- The TokenName lookup the error messages apply to an operand: indexing a
Molecule object with [0] yields undefined, which prints as "undefined". -/
def operandTypeName : Evaluatable → String
  | .tok t => tokenName t
  | .mol _ => "undefined"

/-- Is the operand a Molecule object or an Atom token? -/
def isMolOrAtomOperand : Evaluatable → Bool
  | .mol _ => true
  | .tok (.atom _) => true
  | _ => false

/-- Is the operand a Number token? -/
def isNumOperand : Evaluatable → Bool
  | .tok (.num _) => true
  | _ => false

/-- Apply a binary operator to the popped operands (left, right), mirroring
the inner switch of evaluate.  Returns the updated store and the index of
the Molecule object pushed back.  The default case is unreachable: the
caller only passes Add, Subtract, Coefficient, Subscript or Join. -/
def applyBinOp (st : Store) (op : Tok) (l r : Evaluatable) :
    Except EvalError (Store × Nat) :=
  match op with
  | .subscript =>
    match l, r with
    | .mol i, .tok (.num n) =>
      (liftE (multiplyStatic (storeGet st i) n)).map fun m =>
        (storeSet st i m, i)
    | .tok (.atom a), .tok (.num n) =>
      (liftE (Molecule.fromAtom a)).bind fun m0 =>
        (liftE (multiplyStatic m0 n)).map fun m => (st ++ [m], st.length)
    | l, r =>
      if isMolOrAtomOperand l then
        .error (.generic ("Bad rhs operand for subscript (expected number, got "
          ++ operandTypeName r ++ ")"))
      else
        .error (.generic
          ("Bad lhs operand for subscript (expected molecule or atom, got "
          ++ operandTypeName l ++ ")"))
  | .coefficient =>
    match l, r with
    | .tok (.num n), .mol i =>
      (liftE (multiplyStatic (storeGet st i) n)).map fun m =>
        (storeSet st i m, i)
    | .tok (.num n), .tok (.atom a) =>
      (liftE (Molecule.fromAtom a)).bind fun m0 =>
        (liftE (multiplyStatic m0 n)).map fun m => (st ++ [m], st.length)
    | l, r =>
      -- The source labels the number check "rhs" and the molecule/atom
      -- check "lhs"; the messages are kept as written.
      if isNumOperand l then
        .error (.generic
          ("Bad lhs operand for coefficient (expected molecule or atom, got "
          ++ operandTypeName r ++ ")"))
      else
        .error (.generic ("Bad rhs operand for coefficient (expected number, got "
          ++ operandTypeName l ++ ")"))
  | .add | .subtract | .join =>
    if !isMolOrAtomOperand l then
      .error (.generic ("Bad lhs operand for " ++ tokenName op
        ++ " (expected molecule or atom, got " ++ operandTypeName l ++ ")"))
    else if !isMolOrAtomOperand r then
      .error (.generic ("Bad rhs operand for " ++ tokenName op
        ++ " (expected molecule or atom, got " ++ operandTypeName r ++ ")"))
    else
      -- Promote the left operand to a Molecule object if it is an atom.
      let promoted : Except EvalError (Store × Nat) :=
        match l with
        | .mol i => .ok (st, i)
        | .tok (.atom a) =>
          (liftE (Molecule.fromAtom a)).map fun m => (st ++ [m], st.length)
        | _ => .error .typeError  -- unreachable: guarded above
      promoted.bind fun p =>
        let st1 := p.1
        let i := p.2
        let arg : MolArg :=
          match r with
          | .mol j => .mol (storeGet st1 j)
          | .tok (.atom b) => .atom b 1
          | _ => .mol []  -- unreachable: guarded above
        let res :=
          if op = .subtract then Molecule.subtractMut (storeGet st1 i) arg
          else Molecule.addMut (storeGet st1 i) arg
        (liftE res).map fun m => (storeSet st1 i m, i)
  | _ => .error .typeError  -- unreachable

/-- One step of the evaluator loop on the next input element. -/
def evalStep (st : Store) (stack : List Evaluatable) (t : Evaluatable) :
    Except EvalError (Store × List Evaluatable) :=
  match t with
  | .mol i => .ok (st, .mol i :: stack)
  | .tok (.num n) => .ok (st, .tok (.num n) :: stack)
  | .tok (.atom a) => .ok (st, .tok (.atom a) :: stack)
  | .tok .groupLeft => .ok (st, stack)   -- no switch case: ignored
  | .tok .groupRight => .ok (st, stack)  -- no switch case: ignored
  | .tok op =>
    -- Binary operator: pop the right operand first, then the left.
    match stack with
    | [] => .error (.generic "Unexpected end of input (expected rhs value, got none)")
    | [_] => .error (.generic "Unexpected end of input (expected lhs value, got none)")
    | r :: l :: rest =>
      (applyBinOp st op l r).map fun p => (p.1, .mol p.2 :: rest)

/-- The evaluator loop over the whole input. -/
def evalLoop : List Evaluatable → Store → List Evaluatable →
    Except EvalError (Store × List Evaluatable)
  | [], st, stack => .ok (st, stack)
  | t :: rest, st, stack =>
    (evalStep st stack t).bind fun p => evalLoop rest p.1 p.2

/-- The value evaluate returns: AnyEvaluated = Molecule | AtomLiteral |
number, plus the undefined a bare operator tuple would destructure to. -/
inductive EvalValue
  | mol (i : Nat)
  | num (n : Int)
  | atomLit (s : String)
  | undef
deriving DecidableEq, Repr

/-- The final pop: a Molecule object is returned as is, any other tuple is
destructured and its payload returned (an operator tuple has none, giving
undefined).  Popping an empty stack destructures undefined: TypeError. -/
def finishEval (st : Store) (stack : List Evaluatable) :
    Except EvalError (EvalValue × Store) :=
  match stack with
  | [] => .error .typeError
  | e :: _ =>
    match e with
    | .mol i => .ok (.mol i, st)
    | .tok (.num n) => .ok (.num n, st)
    | .tok (.atom a) => .ok (.atomLit a, st)
    | .tok _ => .ok (.undef, st)

/-- evaluate on a token sequence (the sequence itself is copied by the
source before consumption, so only the store communicates mutation). -/
def evaluate (input : List Evaluatable) (st : Store) :
    Except EvalError (EvalValue × Store) :=
  match input with
  | [] => .error (.generic "Empty input")
  | _ =>
    (evalLoop input st []).bind fun p => finishEval p.1 p.2

/-- A final result with the Molecule dereferenced. -/
inductive FinalValue
  | mol (m : Molecule)
  | num (n : Int)
  | atomLit (s : String)
  | undef
deriving DecidableEq, Repr

/-- Errors of the whole pipeline. -/
inductive StoikError
  | malformed (e : TokenizeError)
  | eval (e : EvalError)
deriving DecidableEq, Repr

/-- evaluate on a formula string: tokenize, convert to RPN, evaluate with an
empty store, and dereference the result. -/
def evaluateStr (s : String) : Except StoikError FinalValue :=
  match tokenize s with
  | .error e => .error (.malformed e)
  | .ok toks =>
    match evaluate ((toRPN toks).map Evaluatable.tok) [] with
    | .error e => .error (.eval e)
    | .ok (v, st) =>
      .ok (match v with
        | .mol i => .mol (storeGet st i)
        | .num n => .num n
        | .atomLit a => .atomLit a
        | .undef => .undef)

/-! ## Auxiliary predicates used to state the claims -/

/-- Is the evaluator value a Molecule or a number (the two result kinds the
spec names)? -/
def EvalValue.isMolOrNum : EvalValue → Bool
  | .mol _ => true
  | .num _ => true
  | _ => false

/-- Is the stack element one of the shapes the evaluator ever pushes
(Molecule object, Number token, Atom token)? -/
def operandLike : Evaluatable → Bool
  | .mol _ => true
  | .tok (.num _) => true
  | .tok (.atom _) => true
  | _ => false

/-- The five binary operators of the evaluator. -/
def isBinaryOp : Tok → Bool
  | .add | .subtract | .coefficient | .subscript | .join => true
  | _ => false

/-- The operand-type contract of each binary operator, as the spec states
it: Subscript wants (molecule-or-atom, number), Coefficient wants
(number, molecule-or-atom), Add/Subtract/Join want molecule-or-atom on both
sides. -/
def opContract : Tok → Evaluatable → Evaluatable → Bool
  | .subscript, l, r => isMolOrAtomOperand l && isNumOperand r
  | .coefficient, l, r => isNumOperand l && isMolOrAtomOperand r
  | .add, l, r => isMolOrAtomOperand l && isMolOrAtomOperand r
  | .subtract, l, r => isMolOrAtomOperand l && isMolOrAtomOperand r
  | .join, l, r => isMolOrAtomOperand l && isMolOrAtomOperand r
  | _, _, _ => true

/-- Did the computation fail with a plain Error (message only)? -/
def isGenericError {α : Type} : Except EvalError α → Bool
  | .error (.generic _) => true
  | _ => false

/-- Did the computation fail with an InvalidOperationError (the error class
that carries both operands and the operator)? -/
def failsWithInvalidOperation {α : Type} : Except EvalError α → Bool
  | .error (.invalidOperation _ _ _ _) => true
  | _ => false

def exceptIsOk {ε α : Type} : Except ε α → Bool
  | .ok _ => true
  | .error _ => false

/-- Modelled from the spec: an atom symbol is a string of exactly one
uppercase letter, optionally followed by one lowercase letter.  This is the
shape the specification claims is validated; it is compared against the
runtime test actually performed by the code. -/
def specAtomShape (s : String) : Bool :=
  match s.data with
  | [c] => isAsciiUpper c
  | [c1, c2] => isAsciiUpper c1 && isAsciiLower c2
  | _ => false

/-! ## Map lemmas -/

lemma mapSetRaw_of_get_none : ∀ (m : Molecule) (k : String) (v : Int),
    mapGet m k = none → mapSetRaw m k v = m ++ [(k, v)]
  | [], _, _, _ => rfl
  | (a, f) :: rest, k, v, h => by
    by_cases hak : a = k
    · simp [mapGet, hak] at h
    · simp only [mapGet, if_neg hak] at h
      simp [mapSetRaw, if_neg hak, mapSetRaw_of_get_none rest k v h]

lemma mapGet_append_of_none : ∀ (m1 m2 : Molecule) (k : String),
    mapGet m1 k = none → mapGet (m1 ++ m2) k = mapGet m2 k
  | [], _, _, _ => rfl
  | (a, f) :: rest, m2, k, h => by
    by_cases hak : a = k
    · simp [mapGet, hak] at h
    · simp only [mapGet, if_neg hak] at h
      simp [mapGet, if_neg hak, mapGet_append_of_none rest m2 k h]

lemma mapDelete_append_of_none : ∀ (m : Molecule) (k : String) (v : Int),
    mapGet m k = none → mapDelete (m ++ [(k, v)]) k = m
  | [], k, v, _ => by simp [mapDelete]
  | (a, f) :: rest, k, v, h => by
    by_cases hak : a = k
    · simp [mapGet, hak] at h
    · simp only [mapGet, if_neg hak] at h
      simp [mapDelete, if_neg hak, mapDelete_append_of_none rest k v h]

/-- Folding the validating set over entries with distinct, valid keys that
are all absent from the accumulator just appends them. -/
lemma foldlM_set_acc : ∀ (l : List (String × Int)) (acc : Molecule),
    (∀ p ∈ l, atomLiteralTest p.1 = true) →
    (l.map Prod.fst).Nodup →
    (∀ p ∈ l, mapGet acc p.1 = none) →
    l.foldlM (fun acc p => Molecule.set acc p.1 p.2) acc = .ok (acc ++ l)
  | [], acc, _, _, _ => by
    show Except.ok acc = Except.ok (acc ++ [])
    simp
  | (a, f) :: rest, acc, hval, hnd, hdisj => by
    have hva : atomLiteralTest a = true := hval (a, f) (List.mem_cons_self _ _)
    have hga : mapGet acc a = none := hdisj (a, f) (List.mem_cons_self _ _)
    have hstep : Molecule.set acc a f = .ok (acc ++ [(a, f)]) := by
      simp [Molecule.set, hva, mapSetRaw_of_get_none acc a f hga]
    have hnd' : (rest.map Prod.fst).Nodup := (List.nodup_cons.mp hnd).2
    have hamem : a ∉ rest.map Prod.fst := (List.nodup_cons.mp hnd).1
    have hdisj' : ∀ p ∈ rest, mapGet (acc ++ [(a, f)]) p.1 = none := by
      intro p hp
      have h1 : mapGet acc p.1 = none := hdisj p (List.mem_cons_of_mem _ hp)
      have h2 : p.1 ≠ a := by
        intro hpa
        exact hamem (hpa ▸ List.mem_map_of_mem Prod.fst hp)
      rw [mapGet_append_of_none acc [(a, f)] p.1 h1]
      have h3 : ¬a = p.1 := fun hh => h2 hh.symm
      simp [mapGet, h3]
    have hrec := foldlM_set_acc rest (acc ++ [(a, f)])
      (fun p hp => hval p (List.mem_cons_of_mem _ hp)) hnd' hdisj'
    simp only [List.foldlM, hstep]
    show List.foldlM (fun acc p => Molecule.set acc p.1 p.2) (acc ++ [(a, f)]) rest
      = Except.ok (acc ++ (a, f) :: rest)
    rw [hrec]
    simp

/-- The Map copy constructor rebuilds a well-formed Molecule unchanged. -/
lemma moleculeCopy_eq_self (m : Molecule) (h : m.wf) : moleculeCopy m = .ok m := by
  have := foldlM_set_acc m [] h.2 h.1 (fun p _ => rfl)
  simpa [moleculeCopy] using this

/-! ## Claim C1 -/

/-- Claim C1 (code bug): the add/subtract/multiply/negate operations are
claimed never to store a frequency of 0, but adding an atom to a molecule
whose stored frequency is the negation stores 0 (the zero check in the atom
branch only fires when subtracting), and multiplying by 0 stores 0 for every
entry (multiplyStatic has no zero check at all). -/
theorem c1_zero_stored :
    Molecule.addMut [("H", -1)] (.atom "H" 1) = .ok [("H", 0)] ∧
    Molecule.multiplyMut [("H", 1)] 0 = .ok [("H", 0)] ∧
    Molecule.hasZeroEntry [("H", 0)] = true := by decide

/-! ## Claim C4 -/

/-- Claim C4: for every well-formed Molecule and every argument, the
non-mutating add/subtract/multiply/negate agree with the mutating forms
applied to the constructor copy (and, the copy being fresh, the receiver is
left unchanged — automatic in this value-level model). -/
theorem c4_pure_mut_equiv (m : Molecule) (h : m.wf) (arg : MolArg) (k : Int) :
    Molecule.add m arg = Molecule.addMut m arg ∧
    Molecule.subtract m arg = Molecule.subtractMut m arg ∧
    Molecule.multiply m k = Molecule.multiplyMut m k ∧
    Molecule.negate m = Molecule.negateMut m := by
  have hc : moleculeCopy m = .ok m := moleculeCopy_eq_self m h
  refine ⟨?_, ?_, ?_, ?_⟩ <;>
    simp [Molecule.add, Molecule.addMut, Molecule.subtract, Molecule.subtractMut,
      Molecule.multiply, Molecule.multiplyMut, Molecule.negate, Molecule.negateMut,
      hc, Except.bind]

/-- Witness for C4 at a concrete well-formed molecule and arguments. -/
theorem c4_pure_mut_equiv_witness :
    Molecule.wf [("H", 2)] ∧
    (Molecule.add [("H", 2)] (.atom "O" 1) = Molecule.addMut [("H", 2)] (.atom "O" 1) ∧
     Molecule.subtract [("H", 2)] (.atom "O" 1) = Molecule.subtractMut [("H", 2)] (.atom "O" 1) ∧
     Molecule.multiply [("H", 2)] 5 = Molecule.multiplyMut [("H", 2)] 5 ∧
     Molecule.negate [("H", 2)] = Molecule.negateMut [("H", 2)]) :=
  ⟨by decide, c4_pure_mut_equiv [("H", 2)] (by decide) (.atom "O" 1) 5⟩

/-! ## Claim C6 -/

/-- Counterexample to claim C6 as stated: when the molecule already holds a
nonzero entry for the atom, addMut followed by subtractMut restores that
entry instead of removing it. -/
theorem c6_counterexample :
    (Molecule.addMut [("H", 5)] (.atom "H" 1)).bind
      (fun m1 => Molecule.subtractMut m1 (.atom "H" 1)) = .ok [("H", 5)] ∧
    mapGet [("H", 5)] "H" = some 5 := by decide

/-- Claim C6 as amended: for a valid atom symbol with no pre-existing entry
in the molecule, addMut followed by subtractMut with the same frequency
leaves no entry for that atom. -/
theorem c6_zero_trim (m : Molecule) (a : String) (f : Int)
    (hval : atomLiteralTest a = true) (habs : mapGet m a = none) :
    ∃ m1 m2, Molecule.addMut m (.atom a f) = .ok m1 ∧
      Molecule.subtractMut m1 (.atom a f) = .ok m2 ∧ mapGet m2 a = none := by
  by_cases hf : f = 0
  · subst hf
    exact ⟨m, m, by simp [Molecule.addMut, addOrSubtractStatic],
      by simp [Molecule.subtractMut, addOrSubtractStatic], habs⟩
  · have h1 : Molecule.addMut m (.atom a f) = .ok (m ++ [(a, f)]) := by
      simp [Molecule.addMut, addOrSubtractStatic, hf, habs, Molecule.set, hval,
        mapSetRaw_of_get_none m a f habs]
    have h2 : Molecule.subtractMut (m ++ [(a, f)]) (.atom a f) = .ok m := by
      simp [Molecule.subtractMut, addOrSubtractStatic, hf,
        mapGet_append_of_none m [(a, f)] a habs, mapGet,
        mapDelete_append_of_none m a f habs]
    exact ⟨m ++ [(a, f)], m, h1, h2, habs⟩

/-- Witness for the amended C6 at a concrete input. -/
theorem c6_zero_trim_witness :
    atomLiteralTest "H" = true ∧ mapGet ([] : Molecule) "H" = none ∧
    ∃ m1 m2, Molecule.addMut ([] : Molecule) (.atom "H" 3) = .ok m1 ∧
      Molecule.subtractMut m1 (.atom "H" 3) = .ok m2 ∧ mapGet m2 "H" = none :=
  ⟨by decide, by decide, c6_zero_trim [] "H" 3 (by decide) (by decide)⟩

/-! ## Claim C7 -/

/-- Claim C7: equal-precedence operators are left-associative, so
"A - B - C" evaluates exactly like "(A-B)-C" (their RPN is even identical)
and differs from "A-(B-C)". -/
theorem c7_subtract_left_assoc :
    evaluateStr "A - B - C" = evaluateStr "(A-B)-C" ∧
    evaluateStr "A - B - C" = .ok (.mol [("A", 1), ("B", -1), ("C", -1)]) ∧
    evaluateStr "A-(B-C)" = .ok (.mol [("A", 1), ("B", -1), ("C", 1)]) ∧
    evaluateStr "A - B - C" ≠ evaluateStr "A-(B-C)" := by decide

/-! ## Claim C8 -/

/-- Claim C8: a leading number is a coefficient with lower precedence than
subscripts and implicit addition, so "2H2O2" evaluates to the molecule with
H mapped to 4 and O mapped to 4. -/
theorem c8_coefficient_multiplies :
    evaluateStr "2H2O2" = .ok (.mol [("H", 4), ("O", 4)]) ∧
    mapGet [("H", 4), ("O", 4)] "H" = some 4 ∧
    mapGet [("H", 4), ("O", 4)] "O" = some 4 := by decide

/-! ## Claim C9 -/

/-- Counterexample to claim C9 as stated: "Abc" (three letters) does not
have the atom-symbol shape the spec requires, yet Molecule.set accepts it,
because the runtime regex /[A-Z][a-z]?/ is unanchored. -/
theorem c9_counterexample :
    specAtomShape "Abc" = false ∧
    Molecule.set [] "Abc" 1 = .ok [("Abc", 1)] ∧
    specAtomShape "xHy" = false ∧
    Molecule.set [] "xHy" 1 = .ok [("xHy", 1)] := by decide

/-- Claim C9 as amended: Molecule.set accepts a key exactly when the key
contains at least one ASCII uppercase letter anywhere (the unanchored
/[A-Z][a-z]?/ test); in particular every string of the exact spec shape is
accepted, but so are longer strings containing one. -/
theorem c9_set_validation (m : Molecule) (s : String) (f : Int) :
    (exceptIsOk (Molecule.set m s f) = true ↔ ∃ c ∈ s.data, isAsciiUpper c = true) ∧
    (specAtomShape s = true → exceptIsOk (Molecule.set m s f) = true) := by
  have hiff : exceptIsOk (Molecule.set m s f) = true ↔
      ∃ c ∈ s.data, isAsciiUpper c = true := by
    by_cases h : atomLiteralTest s = true
    · have hset : Molecule.set m s f = .ok (mapSetRaw m s f) := by
        simp [Molecule.set, h]
      rw [hset]
      simp only [exceptIsOk, true_iff]
      exact List.any_eq_true.mp (by simpa [atomLiteralTest] using h)
    · have hset : Molecule.set m s f = .error "Invalid atom format" := by
        simp [Molecule.set, h]
      rw [hset]
      simp only [exceptIsOk]
      constructor
      · intro hh
        cases hh
      · intro hex
        exact absurd (by simpa [atomLiteralTest] using List.any_eq_true.mpr hex) h
  refine ⟨hiff, fun hs => hiff.mpr ?_⟩
  unfold specAtomShape at hs
  rcases hd : s.data with _ | ⟨c1, _ | ⟨c2, rest⟩⟩ <;> rw [hd] at hs
  · simp at hs
  · exact ⟨c1, by simp, hs⟩
  · cases rest with
    | nil =>
      simp only [Bool.and_eq_true] at hs
      exact ⟨c1, by simp, hs.1⟩
    | cons c3 rest2 => simp at hs

/-- Witness for the amended C9 at a concrete valid symbol. -/
theorem c9_set_validation_witness :
    exceptIsOk (Molecule.set [] "H" 1) = true :=
  (c9_set_validation [] "H" 1).2 (by decide)

/-! ## Claim C10 -/

/-- Claim C10: constructing a single-atom Molecule with frequency 0 runs
neither initialization branch of the constructor, so the construction fails
(JS raises a ReferenceError for the missing super() call) instead of
producing an empty Molecule or a zero entry; likewise fromAtom. -/
theorem c10_zero_frequency_ctor (a : String) :
    moleculeNew a 0 = .error "super constructor was never called" ∧
    Molecule.fromAtom a 0 = .error "super constructor was never called" := by
  constructor <;> simp [moleculeNew, Molecule.fromAtom]

/-! ## Claim C2: counterexample -/

/-- Counterexample to claim C2 as stated: evaluating the single bare Atom
token "H" succeeds with the atom-literal string itself, which is neither a
Molecule nor a number. -/
theorem c2_counterexample :
    evaluate [.tok (.atom "H")] ([] : Store) = .ok (.atomLit "H", []) ∧
    EvalValue.isMolOrNum (.atomLit "H") = false := by decide

/-! ## Claim C3: counterexample -/

/-- Counterexample to claim C3 as stated: Subscript applied to two Number
operands fails, but with a plain Error carrying only a message, not with an
InvalidOperationError carrying the operands and the operator. -/
theorem c3_counterexample :
    evaluate [.tok (.num 2), .tok (.num 3), .tok .subscript] ([] : Store)
      = .error (.generic
        "Bad lhs operand for subscript (expected molecule or atom, got number)") ∧
    failsWithInvalidOperation
      (evaluate [.tok (.num 2), .tok (.num 3), .tok .subscript] ([] : Store))
      = false := by decide

/-! ## Claim C5: counterexample -/

/-- Counterexample to claim C5 as stated: evaluate mutates a Molecule
operand contained in its input sequence in place (here Subscript applies
multiplyMut to the operand object). -/
theorem c5_counterexample :
    evaluate [.mol 0, .tok (.num 2), .tok .subscript] [[("H", 1)]]
      = .ok (.mol 0, [[("H", 2)]]) ∧
    storeGet [[("H", 2)]] 0 ≠ storeGet [[("H", 1)]] 0 := by decide

/-! ## Evaluator infrastructure lemmas -/

lemma except_map_ok {ε α β : Type} (x : Except ε α) (f : α → β) (y : β)
    (h : x.map f = .ok y) : ∃ a, x = .ok a ∧ y = f a := by
  cases x with
  | ok a =>
    refine ⟨a, rfl, ?_⟩
    simpa [Except.map] using h.symm
  | error e => simp [Except.map] at h

lemma liftE_map_ok {α β : Type} (x : Except String α) (f : α → β) (y : β)
    (h : (liftE x).map f = .ok y) : ∃ a, x = .ok a ∧ y = f a := by
  cases x with
  | ok a =>
    refine ⟨a, rfl, ?_⟩
    simpa [liftE, Except.map] using h.symm
  | error e => simp [liftE, Except.map] at h

lemma storeGet_storeSet_ne : ∀ (st : Store) (i j : Nat) (m : Molecule), i ≠ j →
    storeGet (storeSet st i m) j = storeGet st j
  | [], _, _, _, _ => rfl
  | _ :: _, 0, 0, _, h => absurd rfl h
  | _ :: _, 0, _ + 1, _, _ => rfl
  | _ :: _, _ + 1, 0, _, _ => rfl
  | _ :: xs, i + 1, j + 1, m, h =>
    storeGet_storeSet_ne xs i j m (fun hh => h (by rw [hh]))

lemma storeGet_append_lt : ∀ (st l : Store) (j : Nat), j < st.length →
    storeGet (st ++ l) j = storeGet st j
  | [], _, _, h => absurd h (by simp)
  | _ :: _, _, 0, _ => rfl
  | _ :: xs, l, j + 1, h =>
    storeGet_append_lt xs l j (Nat.lt_of_succ_lt_succ h)

/-- Every successful evalStep pushes only operand-like elements. -/
lemma evalStep_operandLike (st : Store) (stack : List Evaluatable)
    (t : Evaluatable) (st' : Store) (stack' : List Evaluatable)
    (h : evalStep st stack t = .ok (st', stack'))
    (hs : ∀ e ∈ stack, operandLike e = true) :
    ∀ e ∈ stack', operandLike e = true := by
  cases t with
  | mol i =>
    simp only [evalStep, Except.ok.injEq, Prod.mk.injEq] at h
    obtain ⟨rfl, rfl⟩ := h
    intro e he
    rcases List.mem_cons.mp he with rfl | hmem
    · rfl
    · exact hs e hmem
  | tok tk =>
    cases tk
    case num n =>
      simp only [evalStep, Except.ok.injEq, Prod.mk.injEq] at h
      obtain ⟨rfl, rfl⟩ := h
      intro e he
      rcases List.mem_cons.mp he with rfl | hmem
      · rfl
      · exact hs e hmem
    case atom a =>
      simp only [evalStep, Except.ok.injEq, Prod.mk.injEq] at h
      obtain ⟨rfl, rfl⟩ := h
      intro e he
      rcases List.mem_cons.mp he with rfl | hmem
      · rfl
      · exact hs e hmem
    case groupLeft =>
      simp only [evalStep, Except.ok.injEq, Prod.mk.injEq] at h
      obtain ⟨rfl, rfl⟩ := h
      exact hs
    case groupRight =>
      simp only [evalStep, Except.ok.injEq, Prod.mk.injEq] at h
      obtain ⟨rfl, rfl⟩ := h
      exact hs
    all_goals
      cases stack with
      | nil => simp [evalStep] at h
      | cons r rest0 =>
        cases rest0 with
        | nil => simp [evalStep] at h
        | cons l rest =>
          simp only [evalStep] at h
          obtain ⟨p, hab, hy⟩ := except_map_ok _ _ _ h
          obtain ⟨rfl, rfl⟩ : st' = p.1 ∧ stack' = Evaluatable.mol p.2 :: rest :=
            ⟨congrArg Prod.fst hy, congrArg Prod.snd hy⟩
          intro e he
          rcases List.mem_cons.mp he with rfl | hmem
          · rfl
          · exact hs e (List.mem_cons_of_mem _ (List.mem_cons_of_mem _ hmem))

/-- The evaluator loop keeps the operand stack operand-like. -/
lemma evalLoop_operandLike : ∀ (input : List Evaluatable) (st : Store)
    (stack : List Evaluatable) (st' : Store) (stack' : List Evaluatable),
    evalLoop input st stack = .ok (st', stack') →
    (∀ e ∈ stack, operandLike e = true) →
    ∀ e ∈ stack', operandLike e = true
  | [], st, stack, st', stack', h, hs => by
    simp only [evalLoop, Except.ok.injEq, Prod.mk.injEq] at h
    obtain ⟨rfl, rfl⟩ := h
    exact hs
  | t :: rest, st, stack, st', stack', h, hs => by
    simp only [evalLoop] at h
    cases hstep : evalStep st stack t with
    | error e =>
      rw [hstep] at h
      simp [Except.bind] at h
    | ok p =>
      rw [hstep] at h
      simp only [Except.bind] at h
      exact evalLoop_operandLike rest p.1 p.2 st' stack' h
        (evalStep_operandLike st stack t p.1 p.2 hstep hs)

/-- finishEval only reads the stack; the store passes through unchanged. -/
lemma finishEval_store (st : Store) (stack : List Evaluatable) (v : EvalValue)
    (st' : Store) (h : finishEval st stack = .ok (v, st')) : st' = st := by
  cases stack with
  | nil => simp [finishEval] at h
  | cons e es =>
    cases e with
    | mol i =>
      simp only [finishEval, Except.ok.injEq, Prod.mk.injEq] at h
      exact h.2.symm
    | tok tk =>
      cases tk <;>
        (simp only [finishEval, Except.ok.injEq, Prod.mk.injEq] at h
         exact h.2.symm)

/-! ## Claim C2: amended theorem -/

/-- Claim C2 as amended: a successful evaluate returns a Molecule, a number,
or an atom-literal string (never any other kind of value), and an input that
is a single bare Atom token yields the atom literal itself rather than a
number or a one-entry Molecule. -/
theorem c2_evaluated_kinds :
    (∀ (input : List Evaluatable) (st : Store) (v : EvalValue) (st' : Store),
      evaluate input st = .ok (v, st') →
      (∃ i, v = .mol i) ∨ (∃ n, v = .num n) ∨ (∃ a, v = .atomLit a)) ∧
    (∀ (s : String) (st : Store),
      evaluate [.tok (.atom s)] st = .ok (.atomLit s, st)) := by
  constructor
  · intro input st v st' h
    cases input with
    | nil => simp [evaluate] at h
    | cons t rest =>
      simp only [evaluate] at h
      cases hl : evalLoop (t :: rest) st [] with
      | error e =>
        rw [hl] at h
        simp [Except.bind] at h
      | ok p =>
        rw [hl] at h
        simp only [Except.bind] at h
        have hall := evalLoop_operandLike (t :: rest) st [] p.1 p.2 hl
          (by intro e he; cases he)
        cases hstk : p.2 with
        | nil =>
          rw [hstk] at h
          simp [finishEval] at h
        | cons e es =>
          have hel : operandLike e = true :=
            hall e (by rw [hstk]; exact List.mem_cons_self _ _)
          rw [hstk] at h
          cases e with
          | mol i =>
            simp only [finishEval, Except.ok.injEq, Prod.mk.injEq] at h
            exact Or.inl ⟨i, h.1.symm⟩
          | tok tk =>
            cases tk
            case num n =>
              simp only [finishEval, Except.ok.injEq, Prod.mk.injEq] at h
              exact Or.inr (Or.inl ⟨n, h.1.symm⟩)
            case atom a =>
              simp only [finishEval, Except.ok.injEq, Prod.mk.injEq] at h
              exact Or.inr (Or.inr ⟨a, h.1.symm⟩)
            all_goals simp [operandLike] at hel
  · intro s st
    rfl

/-- Witness for the amended C2: the bare Atom token "H" evaluates to the
atom-literal value, which the main theorem classifies. -/
theorem c2_evaluated_kinds_witness :
    (∃ i, EvalValue.atomLit "H" = EvalValue.mol i) ∨
    (∃ n, EvalValue.atomLit "H" = EvalValue.num n) ∨
    (∃ a, EvalValue.atomLit "H" = EvalValue.atomLit a) :=
  c2_evaluated_kinds.1 [.tok (.atom "H")] [] (.atomLit "H") [] (by decide)

/-! ## Frame analysis of the binary operators -/

/-- A successful applyBinOp grows the store monotonically, returns an index
that is one of the operand references or fresh, and leaves every slot that
neither operand references unchanged. -/
lemma applyBinOp_frame (st : Store) (op : Tok) (l r : Evaluatable)
    (st' : Store) (idx : Nat) (h : applyBinOp st op l r = .ok (st', idx)) :
    st.length ≤ st'.length ∧
    (l = .mol idx ∨ r = .mol idx ∨ st.length ≤ idx) ∧
    ∀ j, j < st.length → l ≠ .mol j → r ≠ .mol j →
      storeGet st' j = storeGet st j := by
  cases op
  case num n => simp [applyBinOp] at h
  case atom a => simp [applyBinOp] at h
  case groupLeft => simp [applyBinOp] at h
  case groupRight => simp [applyBinOp] at h
  case subscript =>
    cases l with
    | mol i =>
      cases r with
      | mol ir => simp [applyBinOp, isMolOrAtomOperand] at h
      | tok tr =>
        cases tr
        case num n =>
          simp only [applyBinOp] at h
          obtain ⟨m, hm, hy⟩ := liftE_map_ok _ _ _ h
          obtain ⟨rfl, rfl⟩ : st' = storeSet st i m ∧ idx = i :=
            ⟨congrArg Prod.fst hy, congrArg Prod.snd hy⟩
          refine ⟨by simp [storeSet], Or.inl rfl, ?_⟩
          intro j hj hl _
          exact storeGet_storeSet_ne st _ j m (fun hij => hl (by rw [hij]))
        all_goals simp [applyBinOp, isMolOrAtomOperand] at h
    | tok tl =>
      cases tl
      case atom a =>
        cases r with
        | mol ir => simp [applyBinOp, isMolOrAtomOperand] at h
        | tok tr =>
          cases tr
          case num n =>
            simp only [applyBinOp] at h
            cases hfa : Molecule.fromAtom a with
            | error e =>
              rw [hfa] at h
              simp [liftE, Except.map, Except.bind] at h
            | ok m0 =>
              rw [hfa] at h
              simp only [liftE, Except.bind] at h
              obtain ⟨m, hm, hy⟩ := liftE_map_ok _ _ _ h
              obtain ⟨rfl, rfl⟩ : st' = st ++ [m] ∧ idx = st.length :=
                ⟨congrArg Prod.fst hy, congrArg Prod.snd hy⟩
              refine ⟨by simp, Or.inr (Or.inr (Nat.le_refl _)), ?_⟩
              intro j hj _ _
              exact storeGet_append_lt st [m] j hj
          all_goals simp [applyBinOp, isMolOrAtomOperand] at h
      all_goals
        cases r with
        | mol ir => simp [applyBinOp, isMolOrAtomOperand] at h
        | tok tr => simp [applyBinOp, isMolOrAtomOperand] at h
  case coefficient =>
    cases l with
    | mol il =>
      cases r with
      | mol ir => simp [applyBinOp, isNumOperand] at h
      | tok tr => simp [applyBinOp, isNumOperand] at h
    | tok tl =>
      cases tl
      case num n =>
        cases r with
        | mol i =>
          simp only [applyBinOp] at h
          obtain ⟨m, hm, hy⟩ := liftE_map_ok _ _ _ h
          obtain ⟨rfl, rfl⟩ : st' = storeSet st i m ∧ idx = i :=
            ⟨congrArg Prod.fst hy, congrArg Prod.snd hy⟩
          refine ⟨by simp [storeSet], Or.inr (Or.inl rfl), ?_⟩
          intro j hj _ hr
          exact storeGet_storeSet_ne st _ j m (fun hij => hr (by rw [hij]))
        | tok tr =>
          cases tr
          case atom a =>
            simp only [applyBinOp] at h
            cases hfa : Molecule.fromAtom a with
            | error e =>
              rw [hfa] at h
              simp [liftE, Except.map, Except.bind] at h
            | ok m0 =>
              rw [hfa] at h
              simp only [liftE, Except.bind] at h
              obtain ⟨m, hm, hy⟩ := liftE_map_ok _ _ _ h
              obtain ⟨rfl, rfl⟩ : st' = st ++ [m] ∧ idx = st.length :=
                ⟨congrArg Prod.fst hy, congrArg Prod.snd hy⟩
              refine ⟨by simp, Or.inr (Or.inr (Nat.le_refl _)), ?_⟩
              intro j hj _ _
              exact storeGet_append_lt st [m] j hj
          all_goals simp [applyBinOp, isNumOperand, isMolOrAtomOperand] at h
      all_goals
        cases r with
        | mol ir => simp [applyBinOp, isNumOperand] at h
        | tok tr => simp [applyBinOp, isNumOperand] at h
  all_goals
    -- Add, Subtract, Join share one script.
    cases l with
    | mol i =>
      cases r with
      | mol jr =>
        simp only [applyBinOp, isMolOrAtomOperand, Bool.not_true,
          Bool.false_eq_true, if_false, Except.bind] at h
        obtain ⟨m, hm, hy⟩ := liftE_map_ok _ _ _ h
        obtain ⟨rfl, rfl⟩ : st' = storeSet st i m ∧ idx = i :=
          ⟨congrArg Prod.fst hy, congrArg Prod.snd hy⟩
        refine ⟨by simp [storeSet], Or.inl rfl, ?_⟩
        intro j hj hl _
        exact storeGet_storeSet_ne st _ j m (fun hij => hl (by rw [hij]))
      | tok tr =>
        cases tr
        case atom b =>
          simp only [applyBinOp, isMolOrAtomOperand, Bool.not_true,
            Bool.false_eq_true, if_false, Except.bind] at h
          obtain ⟨m, hm, hy⟩ := liftE_map_ok _ _ _ h
          obtain ⟨rfl, rfl⟩ : st' = storeSet st i m ∧ idx = i :=
            ⟨congrArg Prod.fst hy, congrArg Prod.snd hy⟩
          refine ⟨by simp [storeSet], Or.inl rfl, ?_⟩
          intro j hj hl _
          exact storeGet_storeSet_ne st _ j m (fun hij => hl (by rw [hij]))
        all_goals simp [applyBinOp, isMolOrAtomOperand] at h
    | tok tl =>
      cases tl
      case atom a =>
        cases r with
        | mol jr =>
          simp only [applyBinOp, isMolOrAtomOperand, Bool.not_true,
            Bool.false_eq_true, if_false, Except.bind] at h
          cases hfa : Molecule.fromAtom a with
          | error e =>
            rw [hfa] at h
            simp [liftE, Except.map, Except.bind] at h
          | ok m0 =>
            rw [hfa] at h
            simp only [liftE, Except.bind] at h
            obtain ⟨m, hm, hy⟩ := liftE_map_ok _ _ _ h
            obtain ⟨rfl, rfl⟩ :
                st' = storeSet (st ++ [m0]) st.length m ∧ idx = st.length :=
              ⟨congrArg Prod.fst hy, congrArg Prod.snd hy⟩
            refine ⟨by simp [storeSet], Or.inr (Or.inr (Nat.le_refl _)), ?_⟩
            intro j hj _ _
            rw [storeGet_storeSet_ne (st ++ [m0]) st.length j m
              (Nat.ne_of_gt hj)]
            exact storeGet_append_lt st [m0] j hj
        | tok tr =>
          cases tr
          case atom b =>
            simp only [applyBinOp, isMolOrAtomOperand, Bool.not_true,
              Bool.false_eq_true, if_false, Except.bind] at h
            cases hfa : Molecule.fromAtom a with
            | error e =>
              rw [hfa] at h
              simp [liftE, Except.map, Except.bind] at h
            | ok m0 =>
              rw [hfa] at h
              simp only [liftE, Except.bind] at h
              obtain ⟨m, hm, hy⟩ := liftE_map_ok _ _ _ h
              obtain ⟨rfl, rfl⟩ :
                  st' = storeSet (st ++ [m0]) st.length m ∧ idx = st.length :=
                ⟨congrArg Prod.fst hy, congrArg Prod.snd hy⟩
              refine ⟨by simp [storeSet], Or.inr (Or.inr (Nat.le_refl _)), ?_⟩
              intro j hj _ _
              rw [storeGet_storeSet_ne (st ++ [m0]) st.length j m
                (Nat.ne_of_gt hj)]
              exact storeGet_append_lt st [m0] j hj
          all_goals simp [applyBinOp, isMolOrAtomOperand] at h
      all_goals
        cases r with
        | mol jr => simp [applyBinOp, isMolOrAtomOperand] at h
        | tok tr => simp [applyBinOp, isMolOrAtomOperand] at h

/-- One evaluator step never touches a store slot that neither the stack nor
the incoming element references, never shrinks the store, and never makes
the stack reference such a slot. -/
lemma evalStep_frame (st : Store) (stack : List Evaluatable) (t : Evaluatable)
    (st' : Store) (stack' : List Evaluatable)
    (h : evalStep st stack t = .ok (st', stack')) (j : Nat) (hj : j < st.length)
    (hstack : Evaluatable.mol j ∉ stack) (ht : t ≠ .mol j) :
    storeGet st' j = storeGet st j ∧ st.length ≤ st'.length ∧
      Evaluatable.mol j ∉ stack' := by
  cases t with
  | mol i =>
    simp only [evalStep, Except.ok.injEq, Prod.mk.injEq] at h
    obtain ⟨rfl, rfl⟩ := h
    refine ⟨rfl, Nat.le_refl _, ?_⟩
    intro hmem
    rcases List.mem_cons.mp hmem with he | hmem2
    · exact ht he.symm
    · exact hstack hmem2
  | tok tk =>
    cases tk
    case num n =>
      simp only [evalStep, Except.ok.injEq, Prod.mk.injEq] at h
      obtain ⟨rfl, rfl⟩ := h
      refine ⟨rfl, Nat.le_refl _, ?_⟩
      intro hmem
      rcases List.mem_cons.mp hmem with he | hmem2
      · cases he
      · exact hstack hmem2
    case atom a =>
      simp only [evalStep, Except.ok.injEq, Prod.mk.injEq] at h
      obtain ⟨rfl, rfl⟩ := h
      refine ⟨rfl, Nat.le_refl _, ?_⟩
      intro hmem
      rcases List.mem_cons.mp hmem with he | hmem2
      · cases he
      · exact hstack hmem2
    case groupLeft =>
      simp only [evalStep, Except.ok.injEq, Prod.mk.injEq] at h
      obtain ⟨rfl, rfl⟩ := h
      exact ⟨rfl, Nat.le_refl _, hstack⟩
    case groupRight =>
      simp only [evalStep, Except.ok.injEq, Prod.mk.injEq] at h
      obtain ⟨rfl, rfl⟩ := h
      exact ⟨rfl, Nat.le_refl _, hstack⟩
    all_goals
      cases stack with
      | nil => simp [evalStep] at h
      | cons r rest0 =>
        cases rest0 with
        | nil => simp [evalStep] at h
        | cons l rest =>
          simp only [evalStep] at h
          obtain ⟨p, hab, hy⟩ := except_map_ok _ _ _ h
          obtain ⟨rfl, rfl⟩ : st' = p.1 ∧ stack' = Evaluatable.mol p.2 :: rest :=
            ⟨congrArg Prod.fst hy, congrArg Prod.snd hy⟩
          have hlm : l ≠ .mol j := fun he =>
            hstack (he ▸ List.mem_cons_of_mem _ (List.mem_cons_self _ _))
          have hrm : r ≠ .mol j := fun he =>
            hstack (he ▸ List.mem_cons_self _ _)
          obtain ⟨hlen, hdisj, hframe⟩ := applyBinOp_frame st _ l r p.1 p.2 hab
          refine ⟨hframe j hj hlm hrm, hlen, ?_⟩
          intro hmem
          rcases List.mem_cons.mp hmem with he | hmem2
          · have hji : j = p.2 := by
              injection he
            rcases hdisj with hd | hd | hd
            · exact hlm (by rw [hji]; exact hd)
            · exact hrm (by rw [hji]; exact hd)
            · rw [← hji] at hd
              exact absurd hj (Nat.not_lt_of_le hd)
          · exact hstack
              (List.mem_cons_of_mem _ (List.mem_cons_of_mem _ hmem2))

/-- The evaluator loop preserves every store slot the input and the stack do
not reference, and the store only grows. -/
lemma evalLoop_frame : ∀ (input : List Evaluatable) (st : Store)
    (stack : List Evaluatable) (st' : Store) (stack' : List Evaluatable),
    evalLoop input st stack = .ok (st', stack') → ∀ j, j < st.length →
    Evaluatable.mol j ∉ stack → Evaluatable.mol j ∉ input →
    storeGet st' j = storeGet st j ∧ st.length ≤ st'.length
  | [], st, stack, st', stack', h, j, hj, hstack, hin => by
    simp only [evalLoop, Except.ok.injEq, Prod.mk.injEq] at h
    obtain ⟨rfl, rfl⟩ := h
    exact ⟨rfl, Nat.le_refl _⟩
  | t :: rest, st, stack, st', stack', h, j, hj, hstack, hin => by
    simp only [evalLoop] at h
    cases hstep : evalStep st stack t with
    | error e =>
      rw [hstep] at h
      simp [Except.bind] at h
    | ok p =>
      rw [hstep] at h
      simp only [Except.bind] at h
      have htj : t ≠ .mol j := fun he => hin (he ▸ List.mem_cons_self _ _)
      obtain ⟨hg, hlen, hnst⟩ :=
        evalStep_frame st stack t p.1 p.2 hstep j hj hstack htj
      obtain ⟨ih1, ih2⟩ := evalLoop_frame rest p.1 p.2 st' stack' h j
        (Nat.lt_of_lt_of_le hj hlen) hnst
        (fun hmem => hin (List.mem_cons_of_mem _ hmem))
      exact ⟨ih1.trans hg, Nat.le_trans hlen ih2⟩

/-! ## Claim C5: amended theorem -/

/-- Claim C5 as amended: tokenize and toRPN are pure, and evaluate copies
the token sequence; however Molecule operands are passed by reference and
can be mutated in place, so the guarantee that actually holds is a frame
property: every store slot the input sequence does not reference is left
exactly as it was. -/
theorem c5_frame (input : List Evaluatable) (st : Store) (v : EvalValue)
    (st' : Store) (h : evaluate input st = .ok (v, st')) (i : Nat)
    (hi : i < st.length) (href : Evaluatable.mol i ∉ input) :
    storeGet st' i = storeGet st i := by
  cases input with
  | nil => simp [evaluate] at h
  | cons t rest =>
    simp only [evaluate] at h
    cases hl : evalLoop (t :: rest) st [] with
    | error e =>
      rw [hl] at h
      simp [Except.bind] at h
    | ok p =>
      rw [hl] at h
      simp only [Except.bind] at h
      have hfin : st' = p.1 := finishEval_store p.1 p.2 v st' h
      have hframe := evalLoop_frame (t :: rest) st [] p.1 p.2 hl i hi
        (by intro hh; cases hh) href
      rw [hfin]
      exact hframe.1

/-- Witness for the amended C5: evaluating "A" + "B" with a pre-existing
unrelated Molecule object in the store (the run allocates a fresh molecule
at slot 1) leaves slot 0 untouched. -/
theorem c5_frame_witness :
    storeGet [[("O", 1)], [("A", 1), ("B", 1)]] 0 = storeGet [[("O", 1)]] 0 :=
  c5_frame [.tok (.atom "A"), .tok (.atom "B"), .tok .add] [[("O", 1)]]
    (.mol 1) [[("O", 1)], [("A", 1), ("B", 1)]] (by decide) 0 (by decide)
    (by decide)

/-! ## Claim C3: amended theorem -/

lemma isGenericError_map {α β : Type} (x : Except EvalError α) (f : α → β)
    (h : isGenericError x = true) : isGenericError (x.map f) = true := by
  cases x with
  | error e => cases e <;> simp_all [isGenericError, Except.map]
  | ok a => simp [isGenericError] at h

/-- When the popped operands violate a binary operator's type contract, the
operator application fails with a plain generic Error. -/
lemma applyBinOp_bad_generic (st : Store) (op : Tok) (l r : Evaluatable)
    (hop : isBinaryOp op = true) (hbad : opContract op l r = false) :
    isGenericError (applyBinOp st op l r) = true := by
  cases op
  case num n => simp [isBinaryOp] at hop
  case atom a => simp [isBinaryOp] at hop
  case groupLeft => simp [isBinaryOp] at hop
  case groupRight => simp [isBinaryOp] at hop
  all_goals
    cases l with
    | mol il =>
      cases r with
      | mol ir =>
        simp_all [applyBinOp, isGenericError, opContract, isMolOrAtomOperand,
          isNumOperand]
      | tok tr =>
        cases tr <;>
          simp_all [applyBinOp, isGenericError, opContract, isMolOrAtomOperand,
            isNumOperand]
    | tok tl =>
      cases tl <;>
        first
        | (cases r with
           | mol ir =>
             simp_all [applyBinOp, isGenericError, opContract,
               isMolOrAtomOperand, isNumOperand]
           | tok tr =>
             cases tr <;>
               simp_all [applyBinOp, isGenericError, opContract,
                 isMolOrAtomOperand, isNumOperand])

/-- Claim C3 as amended: when a binary operator pops two operands whose
types do not satisfy its contract, evaluate fails, but with a plain generic
Error (message only) rather than an InvalidOperationError carrying the
operands and the operator (that class exists only in the historical variant
of index.ts and is never thrown by the current evaluate). -/
theorem c3_generic_error (st : Store) (stack : List Evaluatable) (op : Tok)
    (l r : Evaluatable) (hop : isBinaryOp op = true)
    (hbad : opContract op l r = false) :
    isGenericError (evalStep st (r :: l :: stack) (.tok op)) = true := by
  have hb := applyBinOp_bad_generic st op l r hop hbad
  cases op <;>
    first
    | exact isGenericError_map _ _ hb
    | simp [isBinaryOp] at hop

/-- Witness for the amended C3: Subscript with two Number operands violates
the contract and the step fails with a generic Error. -/
theorem c3_generic_error_witness :
    isBinaryOp .subscript = true ∧
    opContract .subscript (.tok (.num 2)) (.tok (.num 3)) = false ∧
    isGenericError
      (evalStep ([] : Store) [.tok (.num 3), .tok (.num 2)] (.tok .subscript))
      = true :=
  ⟨by decide, by decide,
    c3_generic_error [] [] .subscript (.tok (.num 2)) (.tok (.num 3))
      (by decide) (by decide)⟩

end Stoik
